import Mathlib

/-!
Shallow embedding of `src/tictactoe.py` (a FastAPI tic-tac-toe server).

Modelling conventions:
* A board cell is a `String` exactly as in the source (`" "`, `"X"`, `"O"`);
  the 3×3 Python list-of-lists board is embedded as a total function
  `Fin 3 → Fin 3 → String`, and the in-place assignment `board[x][y] = s`
  as a pointwise functional update (`place`).
* The Python string-literal enums `PlayerType` and `GameStatus`, and the four
  `HTTPException` details raised by the endpoints, become inductive types.
* `random.choice(empty_cells)` is modelled by an explicit `pick : Nat`
  parameter selecting `empty_cells[pick % len(empty_cells)]`: every choice the
  random source can make is realised by some `pick`.
* Timestamps (`datetime.utcnow()`) are elided: no claim under study mentions
  them, and they influence no control flow in the source (sessions are created
  with strictly increasing timestamps, mirrored by insertion order).
* Python functions that mutate a `Game` in place return the updated game;
  `apply_human_move` returns the game paired with `Option ApiError` so that a
  raised exception and the state the object is left in are both visible.
* The module-level mutable registry (`games` dict, `next_game_id`) becomes
  `ServerState`; dicts preserve insertion order, embedded as an association
  list with append.
-/

namespace TicTacToe

/-- `PlayerType = Literal["human", "computer"]`. -/
inductive PlayerType where
  | human
  | computer
deriving DecidableEq, Repr

/-- `GameStatus = Literal["in_progress", "human_won", "computer_won", "draw"]`. -/
inductive GameStatus where
  | in_progress
  | human_won
  | computer_won
  | draw
deriving DecidableEq, Repr

/-- The four `HTTPException`s raised by the endpoints, identified by their
`detail` messages. -/
inductive ApiError where
  | invalidCoordinate   -- "Coordinates must be between 0 and 2."
  | cellOccupied        -- "Cell is already occupied."
  | gameAlreadyFinished -- "Game already finished with status '...'."
  | gameNotFound        -- "Game not found."
deriving DecidableEq, Repr

/-- The `Move` model. Coordinates recorded in a move are always in `[0,2]` in
the source (validated for the human, enumerated from `range(3)` for the
computer), represented as `Fin 3`. The timestamp field is elided. -/
structure Move where
  move_number : Nat
  player : PlayerType
  x : Fin 3
  y : Fin 3
deriving DecidableEq, Repr

/-- The 3×3 board: `board[r][c]` becomes `board r c`. -/
def Board := Fin 3 → Fin 3 → String

/-- The mutable `Game` object (timestamps elided). -/
structure Game where
  game_id : Int
  board : Board
  moves : List Move
  status : GameStatus

/-- `Game.__init__`: empty board, no moves, status `"in_progress"`. -/
def Game.init (game_id : Int) : Game :=
  { game_id := game_id
    board := fun _ _ => " "
    moves := []
    status := .in_progress }

/-- Embedding of `board[x][y] = symbol` (in-place assignment). -/
def place (board : Board) (x y : Fin 3) (symbol : String) : Board :=
  fun r c => if r = x ∧ c = y then symbol else board r c

/-- `check_winner(board, symbol)`: rows, columns, then the two chained
diagonal comparisons, or-ed together just as the early returns do. -/
def check_winner (board : Board) (symbol : String) : Bool :=
  (([0, 1, 2] : List (Fin 3)).any fun r =>
    ([0, 1, 2] : List (Fin 3)).all fun c => board r c == symbol) ||
  (([0, 1, 2] : List (Fin 3)).any fun c =>
    ([0, 1, 2] : List (Fin 3)).all fun r => board r c == symbol) ||
  (board 0 0 == board 1 1 && board 1 1 == board 2 2 && board 2 2 == symbol) ||
  (board 0 2 == board 1 1 && board 1 1 == board 2 0 && board 2 0 == symbol)

/-- The row-major enumeration `[(r, c) for r in range(3) for c in range(3)]`. -/
def all_cells : List (Fin 3 × Fin 3) :=
  ([0, 1, 2] : List (Fin 3)).flatMap fun r =>
    ([0, 1, 2] : List (Fin 3)).map fun c => (r, c)

/-- `get_empty_cells(board)`: the comprehension
`[(r, c) for r in range(3) for c in range(3) if board[r][c] == " "]`,
factored as the row-major enumeration filtered by emptiness. -/
def get_empty_cells (board : Board) : List (Fin 3 × Fin 3) :=
  all_cells.filter fun p => board p.1 p.2 == " "

/-- `update_game_status(game)`: human win, then computer win, then draw
(empty-cell list empty is falsy), else in progress. -/
def update_game_status (game : Game) : Game :=
  if check_winner game.board "X" then { game with status := .human_won }
  else if check_winner game.board "O" then { game with status := .computer_won }
  else if get_empty_cells game.board = [] then { game with status := .draw }
  else { game with status := .in_progress }

/-- `apply_human_move(game, x, y)`: validate coordinates, validate the target
cell is empty, then place `"X"` and append the move record. The pair returns
the state the game object is left in together with the raised exception, if
any; both `raise` statements precede every mutation in the source. -/
def apply_human_move (game : Game) (x y : Int) : Game × Option ApiError :=
  if h : 0 ≤ x ∧ x ≤ 2 ∧ 0 ≤ y ∧ y ≤ 2 then
    let xf : Fin 3 := ⟨x.toNat, by omega⟩
    let yf : Fin 3 := ⟨y.toNat, by omega⟩
    if game.board xf yf ≠ " " then
      (game, some .cellOccupied)
    else
      let move_number := game.moves.length + 1
      ({ game with
          board := place game.board xf yf "X"
          moves := game.moves ++
            [{ move_number := move_number, player := .human, x := xf, y := yf }] },
        none)
  else
    (game, some .invalidCoordinate)

/-- `apply_computer_move(game)`: no-op when no cell is empty, otherwise place
`"O"` on the cell selected from `get_empty_cells` (see the `pick` convention
in the header) and append the move record. -/
def apply_computer_move (game : Game) (pick : Nat) : Game :=
  let empty_cells := get_empty_cells game.board
  if h : empty_cells = [] then
    game
  else
    let cell := empty_cells.get
      ⟨pick % empty_cells.length, Nat.mod_lt _ (List.length_pos.mpr h)⟩
    { game with
        board := place game.board cell.1 cell.2 "O"
        moves := game.moves ++
          [{ move_number := game.moves.length + 1, player := .computer,
             x := cell.1, y := cell.2 }] }

/-- The module-level mutable state: the `games` dict (insertion-ordered, as
Python dicts are) and the `next_game_id` counter. -/
structure ServerState where
  games : List (Int × Game)
  next_game_id : Int

/-- The state at interpreter startup: `games = {}`, `next_game_id = 1`. -/
def init_state : ServerState :=
  { games := [], next_game_id := 1 }

/-- `POST /games` (`create_game`): allocate the id, bump the counter, store a
fresh `Game`, return it. -/
def create_game (s : ServerState) : ServerState × Game :=
  let game_id := s.next_game_id
  let game := Game.init game_id
  ({ games := s.games ++ [(game_id, game)], next_game_id := s.next_game_id + 1 },
    game)

/-- Embedding of `games[game_id] = g` when `game_id` is already a key:
rewrite that binding in place. -/
def set_game (games : List (Int × Game)) (game_id : Int) (g : Game) :
    List (Int × Game) :=
  games.map fun p => if p.1 = game_id then (game_id, g) else p

/-- `POST /games/{game_id}/moves` (`make_move`): 404 on unknown id, 400 when
the game is finished, then the human move (propagating its exception), status
update, early return when no longer in progress, else the computer move and a
second status update. Each exit writes the game object's current state back
into the registry, mirroring in-place mutation of the stored object. -/
def make_move (s : ServerState) (game_id : Int) (x y : Int) (pick : Nat) :
    ServerState × Except ApiError Game :=
  match s.games.lookup game_id with
  | none => (s, .error .gameNotFound)
  | some game =>
    if game.status ≠ .in_progress then
      (s, .error .gameAlreadyFinished)
    else
      match apply_human_move game x y with
      | (game1, some e) =>
        ({ s with games := set_game s.games game_id game1 }, .error e)
      | (game1, none) =>
        let game2 := update_game_status game1
        if game2.status ≠ .in_progress then
          ({ s with games := set_game s.games game_id game2 }, .ok game2)
        else
          let game3 := update_game_status (apply_computer_move game2 pick)
          ({ s with games := set_game s.games game_id game3 }, .ok game3)

/-- `GET /games/{game_id}/moves` (`list_moves`): 404 on unknown id, else the
move list sorted by `move_number` (Python's stable `sorted`). -/
def list_moves (s : ServerState) (game_id : Int) : Except ApiError (List Move) :=
  match s.games.lookup game_id with
  | none => .error .gameNotFound
  | some game =>
    .ok (game.moves.mergeSort fun a b => a.move_number ≤ b.move_number)

/-- One public mutating request against the server (the two read-only GET
endpoints do not touch the state). -/
inductive Request where
  | create
  | move (game_id : Int) (x y : Int) (pick : Nat)

/-- Effect of one request on the module-level state. -/
def step (s : ServerState) (r : Request) : ServerState :=
  match r with
  | .create => (create_game s).1
  | .move game_id x y pick => (make_move s game_id x y pick).1

/-- The server state after a sequence of requests from startup. -/
def run (rs : List Request) : ServerState :=
  rs.foldl step init_state

/-- States the server can actually be in. -/
def Reachable (s : ServerState) : Prop :=
  ∃ rs : List Request, run rs = s

/-- The mark an actor places on the board. -/
def symbol : PlayerType → String
  | .human => "X"
  | .computer => "O"

/-- The number of non-empty cells on a board. -/
def filled_count (board : Board) : Nat :=
  (all_cells.filter fun p => board p.1 p.2 != " ").length

/-- The strictly alternating actor sequence of length `n` starting with the
human. -/
def alt_players (n : Nat) : List PlayerType :=
  (List.range n).map fun i => if i % 2 = 0 then PlayerType.human else .computer

/-- Invariant tying a board to its move log: one log entry per placed mark,
sequence numbers exactly `1..N`, strict actor alternation starting with the
human, and every recorded move's coordinates still holding that actor's
mark. -/
structure LogInv (board : Board) (moves : List Move) : Prop where
  len_eq : moves.length + (get_empty_cells board).length = 9
  seq : moves.map Move.move_number = List.range' 1 moves.length
  alt : moves.map Move.player = alt_players moves.length
  marks : ∀ m ∈ moves, board m.x m.y = symbol m.player

/-- Per-session invariant: the log invariant, plus an even move count
whenever the session is still in progress (a `make_move` round either
completes with a computer reply or ends the game). -/
def GameInv (g : Game) : Prop :=
  LogInv g.board g.moves ∧ (g.status = .in_progress → g.moves.length % 2 = 0)

/-- Whole-registry invariant: the keys are exactly `1..n` in insertion
order, the counter is one past them, and every stored session satisfies
`GameInv`. -/
def SInv (s : ServerState) : Prop :=
  s.games.map Prod.fst = (List.range s.games.length).map (fun i => Int.ofNat (i + 1)) ∧
  s.next_game_id = s.games.length + 1 ∧
  ∀ kg ∈ s.games, GameInv kg.2

/-! ### Example fixtures -/

/-- A board where both actors have a complete line (row 0 all `"X"`,
row 1 all `"O"`): unreachable in play, used for the precedence check. -/
def exBothLines : Game :=
  { game_id := 1
    board := fun r _ => if r = 0 then "X" else if r = 1 then "O" else " "
    moves := []
    status := .in_progress }

/-- A board where only the computer has a complete line. -/
def exORow : Game :=
  { game_id := 1
    board := fun r _ => if r = 1 then "O" else " "
    moves := []
    status := .in_progress }

/-- A full board with no winning line (rows `XXO`, `OOX`, `XXO`). -/
def exDrawBoard : Game :=
  { game_id := 1
    board := fun r c =>
      if r = 1 then (if c = 2 then "X" else "O")
      else (if c = 2 then "O" else "X")
    moves := []
    status := .in_progress }

/-- A session already won by the human (row 0 all `"X"`, the rest empty),
with a terminal status. -/
def finished_game : Game :=
  { game_id := 1
    board := fun r _ => if r = 0 then "X" else " "
    moves := []
    status := .human_won }

/-- A registry holding only the finished session. -/
def terminal_state : ServerState :=
  { games := [(1, finished_game)], next_game_id := 2 }

/-- A full played-out request history: the human takes row 0 in three rounds
while the picks send the computer to row 1; the third human move wins. -/
def demo_requests : List Request :=
  [.create, .move 1 0 0 2, .move 1 0 1 1, .move 1 0 2 0]

/-- The server state after `demo_requests`. -/
def demo_state : ServerState :=
  run demo_requests

/-- The completed demo session (5 moves, status `human_won`). -/
def demo_game : Game :=
  (demo_state.games.lookup 1).getD (Game.init 0)

/-- The server state after two session creations. -/
def demo2_state : ServerState :=
  run [Request.create, Request.create]

/-! ### Basic lemmas about the operations -/

theorem update_game_status_board (g : Game) :
    (update_game_status g).board = g.board := by
  unfold update_game_status
  split
  · rfl
  split
  · rfl
  split <;> rfl

theorem update_game_status_moves (g : Game) :
    (update_game_status g).moves = g.moves := by
  unfold update_game_status
  split
  · rfl
  split
  · rfl
  split <;> rfl

theorem update_game_status_id (g : Game) :
    (update_game_status g).game_id = g.game_id := by
  unfold update_game_status
  split
  · rfl
  split
  · rfl
  split <;> rfl

/-- When the recomputed status is `in_progress`, the draw branch did not
fire, so some cell is still empty. -/
theorem update_in_progress_nonempty (g : Game)
    (h : (update_game_status g).status = .in_progress) :
    get_empty_cells g.board ≠ [] := by
  unfold update_game_status at h
  split at h
  · simp at h
  split at h
  · simp at h
  split at h
  · simp at h
  · assumption

/-- Inversion of a successful `apply_human_move`: the coordinates were in
range and hit an empty cell, and the game got exactly one mark and one
appended move record. -/
theorem apply_human_move_ok (game : Game) (x y : Int) (g1 : Game)
    (h : apply_human_move game x y = (g1, none)) :
    ∃ xf yf : Fin 3,
      game.board xf yf = " " ∧
      (xf : Nat) = x.toNat ∧ (yf : Nat) = y.toNat ∧
      g1 = { game with
              board := place game.board xf yf "X"
              moves := game.moves ++
                [{ move_number := game.moves.length + 1, player := .human,
                   x := xf, y := yf }] } := by
  unfold apply_human_move at h
  split at h
  · dsimp only at h
    split at h
    · exact absurd (congrArg Prod.snd h) (by simp)
    · next hemp =>
      refine ⟨_, _, not_ne_iff.mp hemp, rfl, rfl, ?_⟩
      exact (congrArg Prod.fst h).symm
  · exact absurd (congrArg Prod.snd h) (by simp)

/-- A failing `apply_human_move` leaves the game exactly as it was: both
`raise` statements precede every mutation. -/
theorem apply_human_move_error (game : Game) (x y : Int) (e : ApiError)
    (h : (apply_human_move game x y).2 = some e) :
    (apply_human_move game x y).1 = game := by
  unfold apply_human_move at h ⊢
  split
  · dsimp only at h ⊢
    split at h <;> split <;> simp_all
  · rfl

/-- `apply_computer_move` on a board with an empty cell places `"O"` on one
of the empty cells and appends the corresponding move record. -/
theorem apply_computer_move_spec (game : Game) (pick : Nat)
    (h : get_empty_cells game.board ≠ []) :
    ∃ cell ∈ get_empty_cells game.board,
      apply_computer_move game pick =
        { game with
            board := place game.board cell.1 cell.2 "O"
            moves := game.moves ++
              [{ move_number := game.moves.length + 1, player := .computer,
                 x := cell.1, y := cell.2 }] } := by
  unfold apply_computer_move
  rw [dif_neg h]
  exact ⟨_, List.get_mem _ _ _, rfl⟩

/-- A successful `apply_human_move`, by the branch conditions. -/
theorem apply_human_move_success (game : Game) (x y : Int)
    (hr : 0 ≤ x ∧ x ≤ 2 ∧ 0 ≤ y ∧ y ≤ 2)
    (hemp : game.board ⟨x.toNat, by omega⟩ ⟨y.toNat, by omega⟩ = " ") :
    apply_human_move game x y =
      ({ game with
          board := place game.board ⟨x.toNat, by omega⟩ ⟨y.toNat, by omega⟩ "X"
          moves := game.moves ++
            [{ move_number := game.moves.length + 1, player := .human,
               x := ⟨x.toNat, by omega⟩, y := ⟨y.toNat, by omega⟩ }] },
        none) := by
  unfold apply_human_move
  rw [dif_pos hr]
  dsimp only
  rw [if_neg (not_ne_iff.mpr hemp)]

/-! ### Counting lemmas for the board -/

theorem symbol_ne_space (p : PlayerType) : symbol p ≠ " " := by
  cases p <;> decide

theorem length_filter_partition {α : Type} (l : List α) (q : α → Bool) :
    (l.filter q).length + (l.filter fun a => !q a).length = l.length := by
  induction l with
  | nil => simp
  | cons a t ih => by_cases h : q a <;> simp [List.filter, h] <;> omega

theorem all_cells_nodup : all_cells.Nodup := by decide

theorem mem_all_cells (p : Fin 3 × Fin 3) : p ∈ all_cells := by
  obtain ⟨x, y⟩ := p
  fin_cases x <;> fin_cases y <;> decide

theorem mem_get_empty_cells {board : Board} {p : Fin 3 × Fin 3} :
    p ∈ get_empty_cells board ↔ board p.1 p.2 = " " := by
  unfold get_empty_cells
  rw [List.mem_filter]
  simp [mem_all_cells]

theorem get_empty_cells_nodup (board : Board) : (get_empty_cells board).Nodup :=
  List.Nodup.filter _ all_cells_nodup

/-- Writing a non-blank symbol removes exactly the target from the empty-cell
enumeration. -/
theorem get_empty_cells_place (board : Board) (x y : Fin 3) {s : String}
    (hs : s ≠ " ") :
    get_empty_cells (place board x y s) =
      (get_empty_cells board).filter fun p => p != (x, y) := by
  unfold get_empty_cells
  rw [List.filter_filter]
  apply List.filter_congr
  intro p _
  by_cases h : p = (x, y)
  · subst h
    simp [place, beq_eq_false_iff_ne.mpr hs]
  · have hne : ¬(p.1 = x ∧ p.2 = y) := by
      rw [Prod.ext_iff] at h
      tauto
    simp [place, hne, h]

theorem get_empty_cells_place_length (board : Board) (x y : Fin 3) {s : String}
    (hs : s ≠ " ") (hemp : board x y = " ") :
    (get_empty_cells (place board x y s)).length + 1 =
      (get_empty_cells board).length := by
  rw [get_empty_cells_place board x y hs]
  have hmem : (x, y) ∈ get_empty_cells board := mem_get_empty_cells.mpr hemp
  rw [← List.Nodup.erase_eq_filter (get_empty_cells_nodup board) (x, y)]
  rw [List.length_erase_of_mem hmem]
  have hpos : 0 < (get_empty_cells board).length :=
    List.length_pos.mpr (List.ne_nil_of_mem hmem)
  omega

/-- There are 9 cells: the non-empty and the empty ones partition them. -/
theorem filled_count_add_empty (board : Board) :
    filled_count board + (get_empty_cells board).length = 9 := by
  have h := length_filter_partition all_cells fun p => board p.1 p.2 != " "
  unfold filled_count get_empty_cells
  have hq : (all_cells.filter fun p => !(board p.1 p.2 != " ")) =
      (all_cells.filter fun p => board p.1 p.2 == " ") := by
    apply List.filter_congr
    intro p _
    simp [bne]
  rw [← hq]
  rw [h]
  rfl

/-! ### Preservation of the log invariant -/

theorem LogInv_init (id : Int) :
    LogInv (Game.init id).board (Game.init id).moves := by
  constructor
  · rfl
  · rfl
  · rfl
  · intro m hm
    simp [Game.init] at hm

theorem GameInv_init (id : Int) : GameInv (Game.init id) :=
  ⟨LogInv_init id, fun _ => rfl⟩

/-- Appending the move a mark placement records preserves the log invariant,
provided the actor matches the alternation parity. -/
theorem LogInv_place (board : Board) (moves : List Move) (xf yf : Fin 3)
    (p : PlayerType) (hemp : board xf yf = " ") (hinv : LogInv board moves)
    (hp : p = (if moves.length % 2 = 0 then PlayerType.human else .computer)) :
    LogInv (place board xf yf (symbol p))
      (moves ++ [{ move_number := moves.length + 1, player := p,
                   x := xf, y := yf }]) := by
  obtain ⟨hlen, hseq, halt, hmarks⟩ := hinv
  constructor
  · have h2 := get_empty_cells_place_length board xf yf (symbol_ne_space p) hemp
    simp only [List.length_append, List.length_cons, List.length_nil]
    omega
  · rw [List.map_append, hseq]
    simp only [List.length_append, List.length_cons, List.length_nil,
      List.map_cons, List.map_nil]
    rw [List.range'_concat]
    simp
    omega
  · rw [List.map_append, halt]
    simp only [List.length_append, List.length_cons, List.length_nil,
      List.map_cons, List.map_nil]
    unfold alt_players
    rw [List.range_succ, List.map_append]
    simp [hp]
  · intro m hm
    rcases List.mem_append.mp hm with hm | hm
    · have hold := hmarks m hm
      have hne : ¬(m.x = xf ∧ m.y = yf) := by
        rintro ⟨h1, h2⟩
        rw [h1, h2, hemp] at hold
        exact symbol_ne_space m.player hold.symm
      simp only [place]
      rw [if_neg hne]
      exact hold
    · simp only [List.mem_singleton] at hm
      subst hm
      simp [place]

/-- Recomputing the status touches neither the board nor the log. -/
theorem update_LogInv (g : Game) (h : LogInv g.board g.moves) :
    LogInv (update_game_status g).board (update_game_status g).moves := by
  rw [update_game_status_board, update_game_status_moves]
  exact h

/-- A successful human move preserves the log invariant when the log held an
even number of moves. -/
theorem apply_human_move_LogInv (game g1 : Game) (x y : Int)
    (h : apply_human_move game x y = (g1, none))
    (hinv : LogInv game.board game.moves)
    (heven : game.moves.length % 2 = 0) :
    LogInv g1.board g1.moves ∧
    g1.moves.length = game.moves.length + 1 ∧
    g1.status = game.status := by
  obtain ⟨xf, yf, hemp, -, -, hg1⟩ := apply_human_move_ok game x y g1 h
  subst hg1
  refine ⟨?_, by simp, rfl⟩
  exact LogInv_place game.board game.moves xf yf .human hemp hinv
    (if_pos heven).symm

/-- A computer move on a board with an empty cell preserves the log invariant
when the log held an odd number of moves. -/
theorem apply_computer_move_LogInv (game : Game) (pick : Nat)
    (hne : get_empty_cells game.board ≠ [])
    (hinv : LogInv game.board game.moves)
    (hodd : game.moves.length % 2 = 1) :
    LogInv (apply_computer_move game pick).board
      (apply_computer_move game pick).moves ∧
    (apply_computer_move game pick).moves.length = game.moves.length + 1 ∧
    (apply_computer_move game pick).status = game.status := by
  obtain ⟨cell, hcellmem, hcm⟩ := apply_computer_move_spec game pick hne
  rw [hcm]
  have hemp : game.board cell.1 cell.2 = " " := mem_get_empty_cells.mp hcellmem
  refine ⟨?_, by simp, rfl⟩
  exact LogInv_place game.board game.moves cell.1 cell.2 .computer hemp hinv
    (if_neg (by omega)).symm

/-! ### Registry lemmas -/

theorem lookup_mem {l : List (Int × Game)} {k : Int} {g : Game}
    (h : l.lookup k = some g) : (k, g) ∈ l := by
  induction l with
  | nil => simp [List.lookup] at h
  | cons a t ih =>
    obtain ⟨k2, v⟩ := a
    rw [List.lookup_cons] at h
    cases hbe : k == k2 with
    | true =>
      rw [hbe] at h
      obtain rfl : v = g := by simpa using h
      exact (eq_of_beq hbe) ▸ List.mem_cons_self _ _
    | false =>
      rw [hbe] at h
      exact List.mem_cons_of_mem _ (ih h)

theorem lookup_eq_none_of_not_mem {l : List (Int × Game)} {k : Int}
    (h : k ∉ l.map Prod.fst) : l.lookup k = none := by
  induction l with
  | nil => rfl
  | cons a t ih =>
    obtain ⟨k2, v⟩ := a
    simp only [List.map_cons, List.mem_cons, not_or] at h
    rw [List.lookup_cons]
    rw [beq_eq_false_iff_ne.mpr h.1]
    exact ih h.2

theorem mem_set_game {l : List (Int × Game)} {id : Int} {g : Game}
    {kg : Int × Game} (h : kg ∈ set_game l id g) : kg.2 = g ∨ kg ∈ l := by
  unfold set_game at h
  obtain ⟨p, hp, hfp⟩ := List.mem_map.mp h
  by_cases hkey : p.1 = id
  · rw [if_pos hkey] at hfp
    left
    rw [← hfp]
  · rw [if_neg hkey] at hfp
    right
    rw [← hfp]
    exact hp

theorem set_game_map_fst (l : List (Int × Game)) (id : Int) (g : Game) :
    (set_game l id g).map Prod.fst = l.map Prod.fst := by
  unfold set_game
  rw [List.map_map]
  apply List.map_congr_left
  intro a _
  by_cases h : a.1 = id
  · simp [h]
  · simp [h]

theorem set_game_length (l : List (Int × Game)) (id : Int) (g : Game) :
    (set_game l id g).length = l.length := by
  unfold set_game
  rw [List.length_map]

theorem lookup_set_game_other {l : List (Int × Game)} {id id2 : Int}
    {g : Game} (hne : id ≠ id2) :
    (set_game l id2 g).lookup id = l.lookup id := by
  induction l with
  | nil => rfl
  | cons a t ih =>
    obtain ⟨k2, v⟩ := a
    show ((if k2 = id2 then (id2, g) else (k2, v)) :: set_game t id2 g).lookup id
        = ((k2, v) :: t).lookup id
    by_cases hk : k2 = id2
    · rw [if_pos hk, List.lookup_cons, List.lookup_cons]
      rw [beq_eq_false_iff_ne.mpr hne,
        beq_eq_false_iff_ne.mpr (show id ≠ k2 by rw [hk]; exact hne)]
      exact ih
    · rw [if_neg hk, List.lookup_cons, List.lookup_cons]
      cases hbe : id == k2 with
      | false => exact ih
      | true => rfl

/-- Everything a `make_move` call can do to the registry: either it rejects
and leaves the state untouched, or it rewrites the addressed in-progress
session with a game that preserves the session invariant. -/
theorem make_move_result (s : ServerState) (game_id x y : Int) (pick : Nat) :
    (make_move s game_id x y pick).1 = s ∨
    ∃ game g2, s.games.lookup game_id = some game ∧
      game.status = .in_progress ∧
      (make_move s game_id x y pick).1 =
        { s with games := set_game s.games game_id g2 } ∧
      (GameInv game → GameInv g2) := by
  unfold make_move
  cases hlk : s.games.lookup game_id with
  | none => left; rfl
  | some game =>
    dsimp only
    by_cases hst : game.status = .in_progress
    · rw [if_neg (fun hne => hne hst)]
      cases happ : apply_human_move game x y with
      | mk g1 oe =>
        cases oe with
        | some e =>
          dsimp only
          right
          refine ⟨game, g1, rfl, hst, rfl, ?_⟩
          have hg1 : g1 = game := by
            have h2 := apply_human_move_error game x y e (by rw [happ])
            rw [happ] at h2
            exact h2
          rw [hg1]
          exact id
        | none =>
          dsimp only
          by_cases hterm : (update_game_status g1).status = .in_progress
          · rw [if_neg (fun hne => hne hterm)]
            right
            refine ⟨game, _, rfl, hst, rfl, ?_⟩
            rintro ⟨hlog, hpar⟩
            have heven := hpar hst
            obtain ⟨hlog1, hlen1, -⟩ :=
              apply_human_move_LogInv game g1 x y happ hlog heven
            have hlog2 := update_LogInv g1 hlog1
            have hne2 : get_empty_cells (update_game_status g1).board ≠ [] := by
              rw [update_game_status_board]
              exact update_in_progress_nonempty g1 hterm
            have hodd2 : (update_game_status g1).moves.length % 2 = 1 := by
              rw [update_game_status_moves]
              omega
            obtain ⟨hlog3, hlen3, -⟩ :=
              apply_computer_move_LogInv (update_game_status g1) pick hne2
                hlog2 hodd2
            constructor
            · exact update_LogInv _ hlog3
            · intro _
              rw [update_game_status_moves, hlen3, update_game_status_moves,
                hlen1]
              omega
          · rw [if_pos hterm]
            right
            refine ⟨game, update_game_status g1, rfl, hst, rfl, ?_⟩
            rintro ⟨hlog, hpar⟩
            have heven := hpar hst
            obtain ⟨hlog1, -, -⟩ :=
              apply_human_move_LogInv game g1 x y happ hlog heven
            exact ⟨update_LogInv g1 hlog1, fun hc => absurd hc hterm⟩
    · rw [if_pos hst]
      left
      rfl

/-- Creation preserves the registry invariant. -/
theorem create_SInv (s : ServerState) (h : SInv s) : SInv (create_game s).1 := by
  obtain ⟨hkeys, hnext, hall⟩ := h
  refine ⟨?_, ?_, ?_⟩
  · show (s.games ++ [(s.next_game_id, Game.init s.next_game_id)]).map Prod.fst
      = (List.range
          (s.games ++ [(s.next_game_id, Game.init s.next_game_id)]).length).map
          (fun i => Int.ofNat (i + 1))
    rw [List.map_append, hkeys, List.length_append]
    simp only [List.length_cons, List.length_nil, List.map_cons, List.map_nil]
    rw [List.range_succ, List.map_append]
    simp only [List.map_cons, List.map_nil]
    rw [hnext]
    simp [Int.ofNat_succ]
  · show s.next_game_id + 1 =
      ((s.games ++ [(s.next_game_id, Game.init s.next_game_id)]).length : Int) + 1
    rw [List.length_append]
    simp only [List.length_cons, List.length_nil]
    omega
  · intro kg hkg
    rcases List.mem_append.mp hkg with h | h
    · exact hall kg h
    · simp only [List.mem_singleton] at h
      rw [h]
      exact GameInv_init _

/-- One public request preserves the registry invariant. -/
theorem step_SInv (s : ServerState) (r : Request) (h : SInv s) :
    SInv (step s r) := by
  cases r with
  | create => exact create_SInv s h
  | move game_id x y pick =>
    obtain ⟨hkeys, hnext, hall⟩ := h
    show SInv (make_move s game_id x y pick).1
    rcases make_move_result s game_id x y pick with heq |
      ⟨game, g2, hlk, -, heq, hpres⟩
    · rw [heq]
      exact ⟨hkeys, hnext, hall⟩
    · rw [heq]
      refine ⟨?_, ?_, ?_⟩
      · show (set_game s.games game_id g2).map Prod.fst
          = (List.range (set_game s.games game_id g2).length).map
              (fun i => Int.ofNat (i + 1))
        rw [set_game_map_fst, set_game_length]
        exact hkeys
      · show s.next_game_id = (set_game s.games game_id g2).length + 1
        rw [set_game_length]
        exact hnext
      · intro kg hkg
        rcases mem_set_game hkg with h2 | h2
        · rw [h2]
          exact hpres (hall _ (lookup_mem hlk))
        · exact hall _ h2

theorem init_SInv : SInv init_state := by
  refine ⟨rfl, rfl, ?_⟩
  intro kg hkg
  simp [init_state] at hkg

/-- The registry invariant holds in every reachable state. -/
theorem reachable_SInv (s : ServerState) (h : Reachable s) : SInv s := by
  obtain ⟨rs, rfl⟩ := h
  suffices h : ∀ (rs : List Request) (s0 : ServerState),
      SInv s0 → SInv (List.foldl step s0 rs) from
    h rs init_state init_SInv
  intro rs
  induction rs with
  | nil => exact fun s0 h0 => h0
  | cons r t ih => exact fun s0 h0 => ih _ (step_SInv s0 r h0)

/-! ### Claims -/

/-- C1: the status recomputation after a board mutation follows exactly the
precedence human win, computer win, draw, in progress; in particular a board
where both actors have complete lines yields `human_won`. -/
theorem update_game_status_precedence (game : Game) :
    (check_winner game.board "X" = true →
      (update_game_status game).status = .human_won) ∧
    (check_winner game.board "X" = false → check_winner game.board "O" = true →
      (update_game_status game).status = .computer_won) ∧
    (check_winner game.board "X" = false → check_winner game.board "O" = false →
      get_empty_cells game.board = [] →
      (update_game_status game).status = .draw) ∧
    (check_winner game.board "X" = false → check_winner game.board "O" = false →
      get_empty_cells game.board ≠ [] →
      (update_game_status game).status = .in_progress) ∧
    (check_winner game.board "X" = true → check_winner game.board "O" = true →
      (update_game_status game).status = .human_won) := by
  unfold update_game_status
  refine ⟨?_, ?_, ?_, ?_, ?_⟩ <;> intros <;> simp_all

/-- C1 witness: all four outcomes, including the double-line board where the
human-first precedence decides. -/
theorem update_game_status_precedence_witness :
    ((update_game_status exBothLines).status = .human_won ∧
      check_winner exBothLines.board "X" = true ∧
      check_winner exBothLines.board "O" = true) ∧
    (update_game_status exORow).status = .computer_won ∧
    (update_game_status exDrawBoard).status = .draw ∧
    (update_game_status (Game.init 1)).status = .in_progress :=
  ⟨⟨(update_game_status_precedence exBothLines).2.2.2.2 (by decide) (by decide),
      by decide, by decide⟩,
    (update_game_status_precedence exORow).2.1 (by decide) (by decide),
    (update_game_status_precedence exDrawBoard).2.2.1 (by decide) (by decide)
      (by decide),
    (update_game_status_precedence (Game.init 1)).2.2.2.1 (by decide) (by decide)
      (by decide)⟩

/-- C2 counterexample: `apply_human_move` called directly on a session whose
status is `human_won` does not fail with `gameAlreadyFinished`; it succeeds
and mutates the board and the move log. The operation performs no status
check at entry. -/
theorem apply_human_move_status_recheck_cex :
    finished_game.status ≠ .in_progress ∧
    (apply_human_move finished_game 1 1).2 ≠ some .gameAlreadyFinished ∧
    (apply_human_move finished_game 1 1).2 = none ∧
    finished_game.board 1 1 = " " ∧
    (apply_human_move finished_game 1 1).1.board 1 1 = "X" ∧
    finished_game.moves.length = 0 ∧
    (apply_human_move finished_game 1 1).1.moves.length = 1 := by
  decide

/-- C2 (amended): `apply_human_move` does not recheck the status at entry;
its behaviour is independent of the session status. On a session whose status
is not `in_progress` it never fails with `gameAlreadyFinished`: it fails with
`invalidCoordinate` or `cellOccupied` exactly by the coordinate and occupancy
checks, and otherwise succeeds and mutates the board and move log. The
`gameAlreadyFinished` rejection happens only in `make_move`. -/
theorem apply_human_move_ignores_status (game : Game) (x y : Int)
    (hterm : game.status ≠ .in_progress) :
    (apply_human_move game x y).2 ≠ some .gameAlreadyFinished ∧
    (¬(0 ≤ x ∧ x ≤ 2 ∧ 0 ≤ y ∧ y ≤ 2) →
      apply_human_move game x y = (game, some .invalidCoordinate)) ∧
    (∀ hr : 0 ≤ x ∧ x ≤ 2 ∧ 0 ≤ y ∧ y ≤ 2,
      game.board ⟨x.toNat, by omega⟩ ⟨y.toNat, by omega⟩ = " " →
      (apply_human_move game x y).2 = none ∧
      (apply_human_move game x y).1.moves.length = game.moves.length + 1) := by
  refine ⟨?_, ?_, ?_⟩
  · unfold apply_human_move
    split
    · dsimp only
      split <;> simp
    · simp
  · intro hnr
    unfold apply_human_move
    rw [dif_neg hnr]
  · intro hr hemp
    rw [apply_human_move_success game x y hr hemp]
    simp

/-- C2 amended-claim witness: a concrete terminal session and in-range empty
cell on which the direct call succeeds. -/
theorem apply_human_move_ignores_status_witness :
    (apply_human_move finished_game 2 2).2 ≠ some .gameAlreadyFinished ∧
    (apply_human_move finished_game 2 2).2 = none ∧
    (apply_human_move finished_game 2 2).1.moves.length =
      finished_game.moves.length + 1 :=
  ⟨(apply_human_move_ignores_status finished_game 2 2 (by decide)).1,
    ((apply_human_move_ignores_status finished_game 2 2 (by decide)).2.2
      (by decide) (by decide)).1,
    ((apply_human_move_ignores_status finished_game 2 2 (by decide)).2.2
      (by decide) (by decide)).2⟩

/-- C4: when `apply_human_move` fails — `invalidCoordinate` for a row or
column outside `[0,2]`, `cellOccupied` for a non-empty target — the game
(board and move log) is returned completely unchanged; no partial mutation
occurs on any validation failure. -/
theorem apply_human_move_validation_no_mutation (game : Game) (x y : Int) :
    (¬(0 ≤ x ∧ x ≤ 2 ∧ 0 ≤ y ∧ y ≤ 2) →
      apply_human_move game x y = (game, some .invalidCoordinate)) ∧
    (∀ hr : 0 ≤ x ∧ x ≤ 2 ∧ 0 ≤ y ∧ y ≤ 2,
      game.board ⟨x.toNat, by omega⟩ ⟨y.toNat, by omega⟩ ≠ " " →
      apply_human_move game x y = (game, some .cellOccupied)) ∧
    (∀ e : ApiError, (apply_human_move game x y).2 = some e →
      (apply_human_move game x y).1 = game) := by
  refine ⟨?_, ?_, fun e he => apply_human_move_error game x y e he⟩
  · intro hnr
    unfold apply_human_move
    rw [dif_neg hnr]
  · intro hr hocc
    unfold apply_human_move
    rw [dif_pos hr]
    dsimp only
    rw [if_pos hocc]

/-- C4 witness: an out-of-range coordinate and an occupied cell, both leaving
the concrete game untouched. -/
theorem apply_human_move_validation_no_mutation_witness :
    apply_human_move (Game.init 1) 5 0 = (Game.init 1, some .invalidCoordinate) ∧
    apply_human_move finished_game 0 0 = (finished_game, some .cellOccupied) :=
  ⟨(apply_human_move_validation_no_mutation (Game.init 1) 5 0).1 (by decide),
    (apply_human_move_validation_no_mutation finished_game 0 0).2.1 (by decide)
      (by decide)⟩

/-- Chained equality into a target equals componentwise equality. -/
theorem eq_chain_iff {a b c s : String} :
    ((a = b ∧ b = c) ∧ c = s) ↔ (a = s ∧ b = s ∧ c = s) := by
  constructor
  · rintro ⟨⟨rfl, rfl⟩, rfl⟩
    exact ⟨rfl, rfl, rfl⟩
  · rintro ⟨rfl, hb, hc⟩
    exact ⟨⟨hb.symm, hb.trans hc.symm⟩, hc⟩

/-- C7: the line check returns true iff one of exactly the 8 winning lines —
3 rows, 3 columns, the diagonal and the anti-diagonal — is fully occupied by
the actor's mark. -/
theorem check_winner_lines (board : Board) (p : PlayerType) :
    check_winner board (symbol p) = true ↔
      ((board 0 0 = symbol p ∧ board 0 1 = symbol p ∧ board 0 2 = symbol p) ∨
       (board 1 0 = symbol p ∧ board 1 1 = symbol p ∧ board 1 2 = symbol p) ∨
       (board 2 0 = symbol p ∧ board 2 1 = symbol p ∧ board 2 2 = symbol p) ∨
       (board 0 0 = symbol p ∧ board 1 0 = symbol p ∧ board 2 0 = symbol p) ∨
       (board 0 1 = symbol p ∧ board 1 1 = symbol p ∧ board 2 1 = symbol p) ∨
       (board 0 2 = symbol p ∧ board 1 2 = symbol p ∧ board 2 2 = symbol p) ∨
       (board 0 0 = symbol p ∧ board 1 1 = symbol p ∧ board 2 2 = symbol p) ∨
       (board 0 2 = symbol p ∧ board 1 1 = symbol p ∧ board 2 0 = symbol p)) := by
  simp only [check_winner, List.any_cons, List.any_nil, List.all_cons,
    List.all_nil, Bool.or_eq_true, Bool.and_eq_true, beq_iff_eq, Bool.and_true,
    Bool.false_eq_true, or_false, and_true]
  rw [eq_chain_iff, eq_chain_iff]
  simp only [or_assoc]

/-- C5: in a round driven by `make_move`, if the human move drives the status
to `human_won` or `draw` the round returns immediately with exactly the one
appended human move and no computer move; otherwise exactly one computer move
follows and the status is recomputed again. -/
theorem make_move_round (s : ServerState) (game_id x y : Int) (pick : Nat)
    (game game1 : Game)
    (hlk : s.games.lookup game_id = some game)
    (hst : game.status = .in_progress)
    (happ : apply_human_move game x y = (game1, none)) :
    ((update_game_status game1).status = .human_won ∨
        (update_game_status game1).status = .draw →
      make_move s game_id x y pick =
        ({ s with games := set_game s.games game_id (update_game_status game1) },
          .ok (update_game_status game1)) ∧
      (update_game_status game1).moves.length = game.moves.length + 1) ∧
    ((update_game_status game1).status = .in_progress →
      make_move s game_id x y pick =
        ({ s with games := (set_game s.games game_id
            (update_game_status
              (apply_computer_move (update_game_status game1) pick))) },
          .ok (update_game_status
            (apply_computer_move (update_game_status game1) pick))) ∧
      (update_game_status
        (apply_computer_move (update_game_status game1) pick)).moves.length
        = game.moves.length + 2) := by
  obtain ⟨xf, yf, -, -, -, hg1⟩ := apply_human_move_ok game x y game1 happ
  have hlen1 : game1.moves.length = game.moves.length + 1 := by
    rw [hg1]; simp
  constructor
  · intro hterm
    have hne : (update_game_status game1).status ≠ .in_progress := by
      rcases hterm with h | h <;> rw [h] <;> simp
    refine ⟨?_, by rw [update_game_status_moves, hlen1]⟩
    unfold make_move
    rw [hlk]
    simp only [hst, ne_eq, not_true_eq_false, if_false, ite_not]
    rw [happ]
    simp [hne]
  · intro hprog
    have hne : get_empty_cells (update_game_status game1).board ≠ [] := by
      rw [update_game_status_board]
      exact update_in_progress_nonempty game1 hprog
    obtain ⟨cell, -, hcm⟩ :=
      apply_computer_move_spec (update_game_status game1) pick hne
    refine ⟨?_, ?_⟩
    · unfold make_move
      rw [hlk]
      simp only [hst, ne_eq, not_true_eq_false, if_false, ite_not]
      rw [happ]
      simp [hprog]
    · rw [update_game_status_moves, hcm]
      simp [update_game_status_moves, hlen1]

/-- C5 witness: a fresh session, human move at the origin; the game stays in
progress so exactly one computer move follows. -/
theorem make_move_round_witness :
    make_move (create_game init_state).1 1 0 0 0 =
      ({ (create_game init_state).1 with
          games := set_game (create_game init_state).1.games 1
            (update_game_status (apply_computer_move
              (update_game_status (apply_human_move (Game.init 1) 0 0).1) 0)) },
        .ok (update_game_status (apply_computer_move
          (update_game_status (apply_human_move (Game.init 1) 0 0).1) 0))) ∧
    (update_game_status (apply_computer_move
      (update_game_status (apply_human_move (Game.init 1) 0 0).1) 0)).moves.length
      = (Game.init 1).moves.length + 2 :=
  (make_move_round (create_game init_state).1 1 0 0 0 (Game.init 1)
      (apply_human_move (Game.init 1) 0 0).1 rfl rfl rfl).2 (by decide)

/-- C3: a session in a terminal status absorbs: every `make_move` against it
fails with `gameAlreadyFinished` leaving the whole registry untouched, and no
public request ever changes that session again (its board and status
included). -/
theorem terminal_absorbing (s : ServerState) (game_id : Int) (game : Game)
    (hlk : s.games.lookup game_id = some game)
    (hterm : game.status ≠ .in_progress) :
    (∀ x y : Int, ∀ pick : Nat,
      make_move s game_id x y pick = (s, .error .gameAlreadyFinished)) ∧
    (∀ r : Request, (step s r).games.lookup game_id = some game) := by
  have hmm : ∀ x y : Int, ∀ pick : Nat,
      make_move s game_id x y pick = (s, .error .gameAlreadyFinished) := by
    intro x y pick
    unfold make_move
    rw [hlk]
    dsimp only
    rw [if_pos hterm]
  refine ⟨hmm, ?_⟩
  intro r
  cases r with
  | create =>
    show ((s.games ++ [_]).lookup game_id) = some game
    rw [List.lookup_append, hlk]
    rfl
  | move id2 x2 y2 pick =>
    show (make_move s id2 x2 y2 pick).1.games.lookup game_id = some game
    rcases make_move_result s id2 x2 y2 pick with heq |
      ⟨game2, g2, hlk2, hst2, heq, -⟩
    · rw [heq]
      exact hlk
    · rw [heq]
      by_cases hid : game_id = id2
      · subst hid
        rw [hlk] at hlk2
        obtain rfl : game = game2 := by simpa using hlk2
        exact absurd hst2 hterm
      · show (set_game s.games id2 g2).lookup game_id = some game
        rw [lookup_set_game_other hid]
        exact hlk

/-- C3 witness: the finished demo registry rejects a move and survives a
creation request untouched. -/
theorem terminal_absorbing_witness :
    make_move terminal_state 1 1 1 0 =
      (terminal_state, .error .gameAlreadyFinished) ∧
    (step terminal_state Request.create).games.lookup 1 = some finished_game :=
  ⟨(terminal_absorbing terminal_state 1 finished_game rfl (by decide)).1 1 1 0,
    (terminal_absorbing terminal_state 1 finished_game rfl (by decide)).2
      Request.create⟩

/-- C6: in every completed (terminal-status) reachable game, the move log has
one entry per placed mark, the sequence numbers are exactly `1..N`, and the
actors strictly alternate starting with the human. -/
theorem completed_game_log (s : ServerState) (hreach : Reachable s)
    (game_id : Int) (game : Game)
    (hlk : s.games.lookup game_id = some game)
    (hterm : game.status ≠ .in_progress) :
    game.moves.length = filled_count game.board ∧
    game.moves.map Move.move_number = List.range' 1 game.moves.length ∧
    game.moves.map Move.player = alt_players game.moves.length := by
  obtain ⟨-, -, hall⟩ := reachable_SInv s hreach
  have hgi : GameInv game := hall _ (lookup_mem hlk)
  obtain ⟨⟨hlen, hseq, halt, -⟩, -⟩ := hgi
  refine ⟨?_, hseq, halt⟩
  have h9 := filled_count_add_empty game.board
  omega

/-- C6 witness: the fully played demo game (human wins in round 3): 5 moves,
5 marks, numbers `1..5`, actors `H,C,H,C,H`. -/
theorem completed_game_log_witness :
    demo_game.moves.length = filled_count demo_game.board ∧
    demo_game.moves.map Move.move_number = List.range' 1 demo_game.moves.length ∧
    demo_game.moves.map Move.player = alt_players demo_game.moves.length :=
  completed_game_log demo_state ⟨demo_requests, rfl⟩ 1 demo_game rfl (by decide)

/-- C8: in every reachable state the session identifiers are exactly
`1, 2, 3, ...` in creation order, each used once; the counter sits one past
them; and a new session is created with the next identifier, an empty board,
an empty move log, and status `in_progress`. -/
theorem create_session_ids (s : ServerState) (hreach : Reachable s) :
    s.games.map Prod.fst =
      (List.range s.games.length).map (fun i => Int.ofNat (i + 1)) ∧
    (s.games.map Prod.fst).Nodup ∧
    s.next_game_id = s.games.length + 1 ∧
    (create_game s).1.games.map Prod.fst =
      s.games.map Prod.fst ++ [s.next_game_id] ∧
    (create_game s).2.game_id = s.next_game_id ∧
    (create_game s).2.board = (fun _ _ => " ") ∧
    (create_game s).2.moves = ([] : List Move) ∧
    (create_game s).2.status = .in_progress := by
  obtain ⟨hkeys, hnext, -⟩ := reachable_SInv s hreach
  refine ⟨hkeys, ?_, hnext, ?_, rfl, rfl, rfl, rfl⟩
  · rw [hkeys]
    refine List.Nodup.map ?_ (List.nodup_range _)
    intro a b hab
    dsimp only at hab
    have h2 := Int.ofNat.inj hab
    omega
  · show (s.games ++ [(s.next_game_id, Game.init s.next_game_id)]).map Prod.fst
      = s.games.map Prod.fst ++ [s.next_game_id]
    rw [List.map_append]
    rfl

/-- C8 witness: after two creations the identifiers are `[1, 2]` and the
third session would be fresh with id 3. -/
theorem create_session_ids_witness :
    demo2_state.games.map Prod.fst =
      (List.range demo2_state.games.length).map (fun i => Int.ofNat (i + 1)) ∧
    (demo2_state.games.map Prod.fst).Nodup ∧
    demo2_state.next_game_id = demo2_state.games.length + 1 ∧
    (create_game demo2_state).1.games.map Prod.fst =
      demo2_state.games.map Prod.fst ++ [demo2_state.next_game_id] ∧
    (create_game demo2_state).2.game_id = demo2_state.next_game_id ∧
    (create_game demo2_state).2.board = (fun _ _ => " ") ∧
    (create_game demo2_state).2.moves = ([] : List Move) ∧
    (create_game demo2_state).2.status = .in_progress :=
  create_session_ids demo2_state ⟨[Request.create, Request.create], rfl⟩

/-- C9: an identifier that was never issued is absent from the registry:
`make_move` and `list_moves` both fail with `gameNotFound` and the state is
unchanged; for any stored session, `list_moves` returns its move log, which
is ordered by ascending sequence number. -/
theorem session_not_found (s : ServerState) (hreach : Reachable s)
    (game_id : Int) :
    (game_id ∉ s.games.map Prod.fst →
      (∀ x y : Int, ∀ pick : Nat,
        make_move s game_id x y pick = (s, .error .gameNotFound)) ∧
      list_moves s game_id = .error .gameNotFound) ∧
    (∀ game : Game, s.games.lookup game_id = some game →
      list_moves s game_id = .ok game.moves ∧
      game.moves.Pairwise (fun a b => a.move_number ≤ b.move_number)) := by
  constructor
  · intro hnm
    have hnone := lookup_eq_none_of_not_mem hnm
    constructor
    · intro x y pick
      unfold make_move
      rw [hnone]
    · unfold list_moves
      rw [hnone]
  · intro game hlk
    obtain ⟨-, -, hall⟩ := reachable_SInv s hreach
    have hgi : GameInv game := hall _ (lookup_mem hlk)
    obtain ⟨⟨-, hseq, -, -⟩, -⟩ := hgi
    have hpw : game.moves.Pairwise
        (fun a b => a.move_number ≤ b.move_number) := by
      have h1 : (game.moves.map Move.move_number).Pairwise (· < ·) := by
        rw [hseq]
        exact List.pairwise_lt_range' 1 _
      rw [List.pairwise_map] at h1
      exact h1.imp (fun h => le_of_lt h)
    refine ⟨?_, hpw⟩
    unfold list_moves
    rw [hlk]
    dsimp only
    have hs : game.moves.Pairwise
        (fun a b => (decide (a.move_number ≤ b.move_number)) = true) :=
      hpw.imp (fun h => decide_eq_true h)
    rw [List.mergeSort_of_sorted hs]

/-- C9 witness: identifier 5 was never issued in the demo run; identifier 1
returns the played log. -/
theorem session_not_found_witness :
    make_move demo_state 5 0 0 0 = (demo_state, .error .gameNotFound) ∧
    list_moves demo_state 5 = .error .gameNotFound ∧
    list_moves demo_state 1 = .ok demo_game.moves :=
  ⟨((session_not_found demo_state ⟨demo_requests, rfl⟩ 5).1 (by decide)).1 0 0 0,
    ((session_not_found demo_state ⟨demo_requests, rfl⟩ 5).1 (by decide)).2,
    ((session_not_found demo_state ⟨demo_requests, rfl⟩ 1).2 demo_game rfl).1⟩

/-- C10: in every reachable session state — in progress or finished — the
move log has exactly one entry per non-empty cell, and each recorded move's
coordinates still hold the recording actor's mark. -/
theorem moves_match_board (s : ServerState) (hreach : Reachable s)
    (game_id : Int) (game : Game)
    (hlk : s.games.lookup game_id = some game) :
    game.moves.length = filled_count game.board ∧
    ∀ m ∈ game.moves, game.board m.x m.y = symbol m.player := by
  obtain ⟨-, -, hall⟩ := reachable_SInv s hreach
  have hgi : GameInv game := hall _ (lookup_mem hlk)
  obtain ⟨⟨hlen, -, -, hmarks⟩, -⟩ := hgi
  have h9 := filled_count_add_empty game.board
  exact ⟨by omega, hmarks⟩

/-- C10 witness: the demo session mid-history state. -/
theorem moves_match_board_witness :
    demo_game.moves.length = filled_count demo_game.board ∧
    ∀ m ∈ demo_game.moves, demo_game.board m.x m.y = symbol m.player :=
  moves_match_board demo_state ⟨demo_requests, rfl⟩ 1 demo_game rfl

end TicTacToe
